import Mathlib

/-!
Verification of the minimal agent workflow engine (app/engine.py, app/models.py).
The engine walks a declarative graph of nodes, each invoking a named tool against
a shared state bag, merging the tool output, deciding the next node via an
optional condition, and logging each step, until a terminal successor, the step
budget, or an error.
-/

namespace Workflow

/-- Dynamically typed state-bag values observed by the engine: Python's None,
integers and strings (the types the condition comparisons distinguish). -/
inductive Value where
  | vnone
  | vint (n : Int)
  | vstr (s : String)
deriving DecidableEq, Repr

/-- Error kinds raised inside the engine (all raised as ValueError or TypeError
in the Python source and caught by the blanket handler in run_graph). -/
inductive EngineError where
  | graphNotFound (id : String)
  | runNotFound (id : String)
  | invalidGraph
  | toolNotFound (name : String)
  | nodeNotFound (id : String)
  | invalidCondition (op : String)
  | typeMismatch
  | toolFailure
deriving DecidableEq, Repr

/-- Python equality between state values: total, cross-type comparisons are
just unequal (None == 5 is False), never an error. -/
def pyEq : Value → Value → Bool
  | Value.vint a, Value.vint b => a == b
  | Value.vstr a, Value.vstr b => a == b
  | Value.vnone, Value.vnone => true
  | _, _ => false

/-- Python strict order lt: defined within ints and within strings, a TypeError
(TypeMismatch) on any mixed pair, None included. -/
def pyLt : Value → Value → Except EngineError Bool
  | Value.vint a, Value.vint b => Except.ok (decide (a < b))
  | Value.vstr a, Value.vstr b => Except.ok (decide (a < b))
  | _, _ => Except.error EngineError.typeMismatch

/-- Python order le, same domain as pyLt. -/
def pyLe : Value → Value → Except EngineError Bool
  | Value.vint a, Value.vint b => Except.ok (decide (a ≤ b))
  | Value.vstr a, Value.vstr b => Except.ok (decide (a ≤ b))
  | _, _ => Except.error EngineError.typeMismatch

/-- Python order gt, same domain as pyLt. -/
def pyGt : Value → Value → Except EngineError Bool
  | Value.vint a, Value.vint b => Except.ok (decide (b < a))
  | Value.vstr a, Value.vstr b => Except.ok (decide (b < a))
  | _, _ => Except.error EngineError.typeMismatch

/-- Python order ge, same domain as pyLt. -/
def pyGe : Value → Value → Except EngineError Bool
  | Value.vint a, Value.vint b => Except.ok (decide (b ≤ a))
  | Value.vstr a, Value.vstr b => Except.ok (decide (b ≤ a))
  | _, _ => Except.error EngineError.typeMismatch

/-- models.Condition: key, op, comparison operand, and the two successor ids.
The op is kept as a raw string because engine._eval_condition itself handles an
arbitrary string defensively (raising on unsupported ops). -/
structure Condition where
  key : String
  op : String
  value : Value
  true_next : Option String
  false_next : Option String
deriving DecidableEq, Repr

/-- models.NodeConfig: a graph vertex. -/
structure NodeConfig where
  id : String
  tool_name : String
  next : Option String
  condition : Option Condition
deriving DecidableEq, Repr

/-- A Python dict as an insertion-ordered association list with unique keys by
construction of the operations below. -/
abbrev StateBag := List (String × Value)

/-- dict.get with default None: the first (hence only) binding of the key. -/
def getVal (s : StateBag) (k : String) : Value :=
  match s.find? (fun p => p.fst == k) with
  | Option.some p => p.snd
  | Option.none => Value.vnone

/-- Python `k in d`. -/
def hasKey {α : Type} (s : List (String × α)) (k : String) : Bool :=
  s.any (fun p => p.fst == k)

/-- Python `d[k] = v`: overwrite in place if present (keeping insertion order),
else append. -/
def setAssoc {α : Type} (s : List (String × α)) (k : String) (v : α) :
    List (String × α) :=
  if hasKey s k then s.map (fun p => if p.fst == k then (k, v) else p)
  else s ++ [(k, v)]

/-- Python `d.get(k)` as an Option. -/
def findAssoc {α : Type} (s : List (String × α)) (k : String) : Option α :=
  match s.find? (fun p => p.fst == k) with
  | Option.some p => Option.some p.snd
  | Option.none => Option.none

/-- Python `state.update(result)`: key-wise overwrite, left to right over the
result's bindings (engine.py line `state.update(result)`). -/
def updateState (s : StateBag) (delta : StateBag) : StateBag :=
  delta.foldl (fun acc p => setAssoc acc p.fst p.snd) s

/-- A registered tool: reads the state bag and either raises (error) or returns
a (possibly empty) partial-state mapping; `result or \x7b\x7d` in
ToolRegistry.call already turned a None result into the empty mapping. -/
abbrev ToolFn := StateBag → Except Unit StateBag

/-- ToolRegistry._tools: name to callable. -/
abbrev ToolRegistry := List (String × ToolFn)

/-- ToolRegistry.call: raises ToolNotFound for an unregistered name, otherwise
runs the tool, propagating a tool-internal failure. -/
def registryCall (reg : ToolRegistry) (name : String) (s : StateBag) :
    Except EngineError StateBag :=
  match findAssoc reg name with
  | Option.none => Except.error (EngineError.toolNotFound name)
  | Option.some f =>
    match f s with
    | Except.error _ => Except.error EngineError.toolFailure
    | Except.ok r => Except.ok r

/-- models.StepLog: one executed step. -/
structure StepLog where
  step : Nat
  node_id : String
  tool_name : String
  next_node : Option String
  state : StateBag
deriving DecidableEq, Repr

/-- engine.GraphDef. -/
structure GraphDef where
  id : String
  name : String
  start_node : String
  nodes : List (String × NodeConfig)
deriving DecidableEq, Repr

/-- engine.RunRecord. -/
structure RunRecord where
  id : String
  graph_id : String
  status : String
  state : StateBag
  log : List StepLog
deriving DecidableEq, Repr

/-- models.GraphCreateRequest. -/
structure GraphCreateRequest where
  name : String
  start_node : String
  nodes : List NodeConfig
deriving DecidableEq, Repr

/-- WorkflowEngine state: the graph store and the run store. The tool registry
is passed alongside, as the engine holds it by reference. -/
structure Engine where
  graphs : List (String × GraphDef)
  runs : List (String × RunRecord)
deriving DecidableEq, Repr

/-- WorkflowEngine._eval_condition: dispatch on the op string; unsupported op
raises InvalidCondition. -/
def eval_condition (cond : Condition) (left right : Value) :
    Except EngineError Bool :=
  if cond.op == "lt" then pyLt left right
  else if cond.op == "le" then pyLe left right
  else if cond.op == "gt" then pyGt left right
  else if cond.op == "ge" then pyGe left right
  else if cond.op == "eq" then Except.ok (pyEq left right)
  else if cond.op == "ne" then Except.ok (!pyEq left right)
  else Except.error (EngineError.invalidCondition cond.op)

/-- WorkflowEngine._decide_next: no condition means the fixed next edge;
otherwise compare state.get(cond.key) against cond.value and pick
true_next or false_next. -/
def decide_next (node : NodeConfig) (s : StateBag) :
    Except EngineError (Option String) :=
  match node.condition with
  | Option.none => Except.ok node.next
  | Option.some cond =>
    let left := getVal s cond.key
    let right := cond.value
    match eval_condition cond left right with
    | Except.error e => Except.error e
    | Except.ok true => Except.ok cond.true_next
    | Except.ok false => Except.ok cond.false_next

/-- Outcome of the walk loop in run_graph: normal exit (terminal successor or
step budget), or the first raised error, carrying the state and log as they
stand at that moment (the blanket handler keeps them as-is). -/
inductive LoopResult where
  | completed (state : StateBag) (log : List StepLog)
  | failed (e : EngineError) (state : StateBag) (log : List StepLog)
deriving DecidableEq, Repr

/-- The while loop of WorkflowEngine.run_graph. `fuel` is the remaining budget
max_steps - step_counter, so `step_counter < max_steps` is `fuel > 0`; `sc` is
the step counter so far. Each iteration resolves the current node (KeyError is
NodeNotFound), calls its tool, merges a non-empty result, decides the
successor, appends the StepLog (with a copy of the state), and continues. -/
def run_loop (reg : ToolRegistry) (graph : GraphDef) :
    Nat → Option String → Nat → StateBag → List StepLog → LoopResult
  | _, Option.none, _, state, log => LoopResult.completed state log
  | 0, Option.some _, _, state, log => LoopResult.completed state log
  | fuel + 1, Option.some cur, sc, state, log =>
    match findAssoc graph.nodes cur with
    | Option.none => LoopResult.failed (EngineError.nodeNotFound cur) state log
    | Option.some node =>
      match registryCall reg node.tool_name state with
      | Except.error e => LoopResult.failed e state log
      | Except.ok result =>
        let state2 := if result.isEmpty then state else updateState state result
        match decide_next node state2 with
        | Except.error e => LoopResult.failed e state2 log
        | Except.ok nextNode =>
          run_loop reg graph fuel nextNode (sc + 1) state2
            (log ++ [StepLog.mk (sc + 1) node.id node.tool_name nextNode state2])

/-- The RunRecord inserted into the run store before the loop starts:
status running, a copy of the initial state, empty log. -/
def init_run (run_id graph_id : String) (initial_state : StateBag) : RunRecord :=
  RunRecord.mk run_id graph_id "running" initial_state []

/-- WorkflowEngine.run_graph. Raises GraphNotFound for an unknown graph id;
otherwise registers the fresh running record, walks the graph, and finalises
the same record (aliased in the store) as completed or failed. The fresh
uuid run id is a parameter. -/
def run_graph (reg : ToolRegistry) (eng : Engine) (run_id : String)
    (graph_id : String) (initial_state : StateBag) (max_steps : Nat) :
    Engine × Except EngineError RunRecord :=
  match findAssoc eng.graphs graph_id with
  | Option.none => (eng, Except.error (EngineError.graphNotFound graph_id))
  | Option.some graph =>
    let run0 := init_run run_id graph_id initial_state
    let eng1 := Engine.mk eng.graphs (setAssoc eng.runs run_id run0)
    let finalRun :=
      match run_loop reg graph max_steps (Option.some graph.start_node) 0
          initial_state [] with
      | LoopResult.completed s l => RunRecord.mk run_id graph_id "completed" s l
      | LoopResult.failed _ s l => RunRecord.mk run_id graph_id "failed" s l
    (Engine.mk eng1.graphs (setAssoc eng1.runs run_id finalRun),
      Except.ok finalRun)

/-- The dict comprehension \x7bn.id: n for n in req.nodes\x7d: later duplicate
ids overwrite earlier ones. -/
def nodes_by_id (ns : List NodeConfig) : List (String × NodeConfig) :=
  ns.foldl (fun acc n => setAssoc acc n.id n) []

/-- WorkflowEngine.create_graph: build the id-keyed node map, validate that
start_node is one of the node ids (raising InvalidGraph otherwise, the store
untouched), then store the GraphDef under the fresh id. The fresh uuid graph
id is a parameter. -/
def create_graph (eng : Engine) (graph_id : String) (req : GraphCreateRequest) :
    Engine × Except EngineError String :=
  let nodesById := nodes_by_id req.nodes
  if hasKey nodesById req.start_node then
    let graph := GraphDef.mk graph_id req.name req.start_node nodesById
    (Engine.mk (setAssoc eng.graphs graph_id graph) eng.runs,
      Except.ok graph_id)
  else (eng, Except.error EngineError.invalidGraph)

/-- Graph store lookup (self.graphs[graph_id]). -/
def get_graph (eng : Engine) (graph_id : String) : Except EngineError GraphDef :=
  match findAssoc eng.graphs graph_id with
  | Option.some g => Except.ok g
  | Option.none => Except.error (EngineError.graphNotFound graph_id)

/-- WorkflowEngine.get_run. -/
def get_run (eng : Engine) (run_id : String) : Except EngineError RunRecord :=
  match findAssoc eng.runs run_id with
  | Option.some r => Except.ok r
  | Option.none => Except.error (EngineError.runNotFound run_id)

/-- The log of a loop outcome, whether completed or failed. -/
def LoopResult.logOf : LoopResult → List StepLog
  | LoopResult.completed _ l => l
  | LoopResult.failed _ _ l => l

/-! ### Dictionary lemmas -/

theorem findAssoc_cons {α : Type} (p : String × α) (s : List (String × α))
    (k : String) :
    findAssoc (p :: s) k =
      if p.fst == k then Option.some p.snd else findAssoc s k := by
  cases h : (p.fst == k) <;> simp [findAssoc, List.find?, h]

theorem hasKey_cons {α : Type} (p : String × α) (s : List (String × α))
    (k : String) :
    hasKey (p :: s) k = (p.fst == k || hasKey s k) := by
  simp [hasKey]

theorem getVal_eq_findAssoc (s : StateBag) (k : String) :
    getVal s k = (findAssoc s k).getD Value.vnone := by
  unfold getVal findAssoc
  cases s.find? (fun p => p.fst == k) <;> rfl

theorem hasKey_eq_isSome {α : Type} (s : List (String × α)) (k : String) :
    hasKey s k = (findAssoc s k).isSome := by
  induction s with
  | nil => rfl
  | cons p t ih =>
    rw [hasKey_cons, findAssoc_cons]
    cases h : (p.fst == k) <;> simp [h, ih]

theorem hasKey_false_findAssoc {α : Type} (s : List (String × α)) (k : String)
    (h : hasKey s k = false) : findAssoc s k = Option.none := by
  rw [hasKey_eq_isSome] at h
  cases hf : findAssoc s k
  · rfl
  · rw [hf] at h
    simp at h

theorem hasKey_false_getVal (s : StateBag) (k : String)
    (h : hasKey s k = false) : getVal s k = Value.vnone := by
  rw [getVal_eq_findAssoc, hasKey_false_findAssoc s k h]
  rfl

theorem findAssoc_map_rewrite {α : Type} (t : List (String × α))
    (k k' : String) (v : α) (hkk : (k == k') = false) :
    findAssoc (t.map (fun p => if p.fst == k then (k, v) else p)) k' =
      findAssoc t k' := by
  have hne : k ≠ k' := by
    intro he
    rw [he] at hkk
    simp at hkk
  induction t with
  | nil => rfl
  | cons p t ih =>
    rw [List.map_cons, findAssoc_cons, findAssoc_cons]
    by_cases hpk : p.fst = k
    · rw [show (if p.fst == k then (k, v) else p) = (k, v) by simp [hpk]]
      rw [if_neg (by simp [hne] : ¬ ((k, v).fst == k') = true)]
      rw [if_neg (by simp [hpk, hne] : ¬ (p.fst == k') = true)]
      exact ih
    · rw [show (if p.fst == k then (k, v) else p) = p by simp [hpk]]
      rw [ih]

theorem findAssoc_setAssoc {α : Type} (s : List (String × α)) (k k' : String)
    (v : α) :
    findAssoc (setAssoc s k v) k' =
      if k == k' then Option.some v else findAssoc s k' := by
  induction s with
  | nil =>
    simp [setAssoc, hasKey, findAssoc_cons]
  | cons p t ih =>
    by_cases hpk : p.fst = k
    · have hk : hasKey (p :: t) k = true := by
        rw [hasKey_cons]
        simp [hpk]
      rw [setAssoc, hk, if_pos rfl, List.map_cons]
      rw [show (if p.fst == k then (k, v) else p) = (k, v) by simp [hpk]]
      rw [findAssoc_cons]
      by_cases hkk : k = k'
      · simp [hkk]
      · have hb : (k == k') = false := by simp [hkk]
        simp only [hb]
        rw [findAssoc_map_rewrite t k k' v hb, findAssoc_cons]
        simp [hpk, hb, hkk]
    · by_cases ht : hasKey t k = true
      · have hk : hasKey (p :: t) k = true := by
          rw [hasKey_cons, ht]
          simp
        have hmap : setAssoc t k v =
            t.map (fun q => if q.fst == k then (k, v) else q) := by
          rw [setAssoc, ht, if_pos rfl]
        rw [setAssoc, hk, if_pos rfl, List.map_cons]
        rw [show (if p.fst == k then (k, v) else p) = p by simp [hpk]]
        rw [findAssoc_cons, ← hmap, ih, findAssoc_cons]
        by_cases hkk : k = k'
        · have : ¬ p.fst = k' := by rw [← hkk]; exact hpk
          simp [hkk, this]
        · simp [hkk]
      · have ht' : hasKey t k = false := by
          cases h : hasKey t k
          · rfl
          · exact absurd h ht
        have hk : hasKey (p :: t) k = false := by
          rw [hasKey_cons, ht']
          simp [hpk]
        have htl : setAssoc t k v = t ++ [(k, v)] := by
          rw [setAssoc, ht']
          simp
        rw [setAssoc, hk]
        simp only [Bool.false_eq_true, if_false, List.cons_append]
        rw [findAssoc_cons, ← htl, ih, findAssoc_cons]
        by_cases hkk : k = k'
        · have : ¬ p.fst = k' := by rw [← hkk]; exact hpk
          simp [hkk, this]
        · simp [hkk]

theorem hasKey_setAssoc {α : Type} (s : List (String × α)) (k k' : String)
    (v : α) :
    hasKey (setAssoc s k v) k' = (k == k' || hasKey s k') := by
  rw [hasKey_eq_isSome, hasKey_eq_isSome, findAssoc_setAssoc]
  by_cases hkk : k = k' <;> simp [hkk]

theorem hasKey_mem {α : Type} (s : List (String × α)) (k : String) :
    hasKey s k = true ↔ k ∈ s.map Prod.fst := by
  simp [hasKey, List.any_eq_true, List.mem_map]

theorem updateState_cons (s : StateBag) (q : String × Value) (d : StateBag) :
    updateState s (q :: d) = updateState (setAssoc s q.fst q.snd) d := rfl

theorem findAssoc_updateState_none (d : StateBag) :
    ∀ (s : StateBag) (k : String), findAssoc d k = Option.none →
    findAssoc (updateState s d) k = findAssoc s k := by
  induction d with
  | nil =>
    intro s k _
    rfl
  | cons q d ih =>
    intro s k h
    rw [findAssoc_cons] at h
    by_cases hq : q.fst = k
    · rw [if_pos (by simp [hq])] at h
      exact absurd h (by simp)
    · rw [if_neg (by simp [hq])] at h
      rw [updateState_cons, ih _ k h, findAssoc_setAssoc,
        if_neg (by simp [hq])]

theorem findAssoc_updateState_some (d : StateBag) :
    ∀ (s : StateBag) (k : String) (v : Value),
    (d.map Prod.fst).Nodup → findAssoc d k = Option.some v →
    findAssoc (updateState s d) k = Option.some v := by
  induction d with
  | nil =>
    intro s k v _ h
    exact absurd h (by simp [findAssoc])
  | cons q d ih =>
    intro s k v hnd h
    rw [List.map_cons, List.nodup_cons] at hnd
    rw [findAssoc_cons] at h
    by_cases hq : q.fst = k
    · rw [if_pos (by simp [hq])] at h
      have hk : hasKey d k = false := by
        cases hkk : hasKey d k
        · rfl
        · exact absurd ((hasKey_mem d k).mp hkk) (by rw [← hq]; exact hnd.1)
      have hnone : findAssoc d k = Option.none := hasKey_false_findAssoc d k hk
      rw [updateState_cons, findAssoc_updateState_none d _ k hnone,
        findAssoc_setAssoc, if_pos (by simp [hq])]
      exact h
    · rw [if_neg (by simp [hq])] at h
      rw [updateState_cons]
      exact ih _ k v hnd.2 h

theorem hasKey_updateState (d : StateBag) :
    ∀ (s : StateBag) (k : String),
    hasKey (updateState s d) k = (hasKey s k || hasKey d k) := by
  induction d with
  | nil =>
    intro s k
    simp [updateState, hasKey]
  | cons q d ih =>
    intro s k
    rw [updateState_cons, ih, hasKey_setAssoc, hasKey_cons]
    cases h1 : hasKey s k <;> cases h2 : (q.fst == k) <;>
      cases h3 : hasKey d k <;> simp

/-! ### run_loop unfolding lemmas -/

theorem run_loop_none (reg : ToolRegistry) (graph : GraphDef) (fuel sc : Nat)
    (st : StateBag) (lg : List StepLog) :
    run_loop reg graph fuel Option.none sc st lg =
      LoopResult.completed st lg := by
  cases fuel <;> rfl

theorem run_loop_zero (reg : ToolRegistry) (graph : GraphDef)
    (cur : Option String) (sc : Nat) (st : StateBag) (lg : List StepLog) :
    run_loop reg graph 0 cur sc st lg = LoopResult.completed st lg := by
  cases cur <;> rfl

theorem run_loop_succ_node_missing (reg : ToolRegistry) (graph : GraphDef)
    (fuel : Nat) (cur : String) (sc : Nat) (st : StateBag) (lg : List StepLog)
    (h : findAssoc graph.nodes cur = Option.none) :
    run_loop reg graph (fuel + 1) (Option.some cur) sc st lg =
      LoopResult.failed (EngineError.nodeNotFound cur) st lg := by
  simp [run_loop, h]

theorem run_loop_succ_tool_error (reg : ToolRegistry) (graph : GraphDef)
    (fuel : Nat) (cur : String) (sc : Nat) (st : StateBag) (lg : List StepLog)
    (node : NodeConfig) (e : EngineError)
    (h1 : findAssoc graph.nodes cur = Option.some node)
    (h2 : registryCall reg node.tool_name st = Except.error e) :
    run_loop reg graph (fuel + 1) (Option.some cur) sc st lg =
      LoopResult.failed e st lg := by
  simp [run_loop, h1, h2]

theorem run_loop_succ_cond_error (reg : ToolRegistry) (graph : GraphDef)
    (fuel : Nat) (cur : String) (sc : Nat) (st : StateBag) (lg : List StepLog)
    (node : NodeConfig) (res : StateBag) (e : EngineError)
    (h1 : findAssoc graph.nodes cur = Option.some node)
    (h2 : registryCall reg node.tool_name st = Except.ok res)
    (h3 : decide_next node (if res.isEmpty then st else updateState st res) =
      Except.error e) :
    run_loop reg graph (fuel + 1) (Option.some cur) sc st lg =
      LoopResult.failed e
        (if res.isEmpty then st else updateState st res) lg := by
  simp at h3 ⊢
  simp [run_loop, h1, h2, h3]

theorem run_loop_succ_step (reg : ToolRegistry) (graph : GraphDef)
    (fuel : Nat) (cur : String) (sc : Nat) (st : StateBag) (lg : List StepLog)
    (node : NodeConfig) (res : StateBag) (nxt : Option String)
    (h1 : findAssoc graph.nodes cur = Option.some node)
    (h2 : registryCall reg node.tool_name st = Except.ok res)
    (h3 : decide_next node (if res.isEmpty then st else updateState st res) =
      Except.ok nxt) :
    run_loop reg graph (fuel + 1) (Option.some cur) sc st lg =
      run_loop reg graph fuel nxt (sc + 1)
        (if res.isEmpty then st else updateState st res)
        (lg ++ [StepLog.mk (sc + 1) node.id node.tool_name nxt
          (if res.isEmpty then st else updateState st res)]) := by
  simp at h3 ⊢
  simp [run_loop, h1, h2, h3]

/-! ### Concrete fixtures used by witnesses and counterexamples -/

/-- A tool that always succeeds returning the empty mapping. -/
def okTool : ToolFn := fun _ => Except.ok []

/-- A registry holding only the tool "t". -/
def okReg : ToolRegistry := [("t", okTool)]

/-- A node with no successor: the walk terminates after it. -/
def termNode : NodeConfig := NodeConfig.mk "A" "t" Option.none Option.none

def termGraph : GraphDef := GraphDef.mk "g" "G" "A" [("A", termNode)]

def termEngine : Engine := Engine.mk [("g", termGraph)] []

/-- The record produced by running termGraph. -/
def termRecord : RunRecord :=
  RunRecord.mk "r" "g" "completed" [] [StepLog.mk 1 "A" "t" Option.none []]

/-- A one-node cycle: X's next edge points back to X. -/
def cycleNode : NodeConfig := NodeConfig.mk "X" "t" (Option.some "X") Option.none

def cycleGraph : GraphDef := GraphDef.mk "g" "G" "X" [("X", cycleNode)]

def cycleEngine : Engine := Engine.mk [("g", cycleGraph)] []

/-- The record produced by running cycleGraph with a budget of 5. -/
def cycleRecord : RunRecord :=
  RunRecord.mk "r" "g" "completed" []
    [StepLog.mk 1 "X" "t" (Option.some "X") [],
     StepLog.mk 2 "X" "t" (Option.some "X") [],
     StepLog.mk 3 "X" "t" (Option.some "X") [],
     StepLog.mk 4 "X" "t" (Option.some "X") [],
     StepLog.mk 5 "X" "t" (Option.some "X") []]

/-- A node referencing a tool name that is not registered in okReg. -/
def missingToolNode : NodeConfig :=
  NodeConfig.mk "A" "nope" Option.none Option.none

def missingToolGraph : GraphDef := GraphDef.mk "g" "G" "A" [("A", missingToolNode)]

def missingToolEngine : Engine := Engine.mk [("g", missingToolGraph)] []

/-! ### Claim theorems -/

/-- Claim C1: when a graph id resolves, run_graph never raises: it always
returns a RunRecord, and if the walk loop fails with any engine error the
returned record has status failed carrying exactly the partial log accumulated
before the failure and the state as of the last successful merge, with no retry
and no rollback. -/
theorem run_graph_catches_walk_errors (reg : ToolRegistry) (eng : Engine)
    (rid gid : String) (st : StateBag) (ms : Nat) (graph : GraphDef)
    (hg : findAssoc eng.graphs gid = Option.some graph) :
    (∃ r, (run_graph reg eng rid gid st ms).snd = Except.ok r) ∧
    (∀ e s l,
      run_loop reg graph ms (Option.some graph.start_node) 0 st [] =
        LoopResult.failed e s l →
      (run_graph reg eng rid gid st ms).snd =
        Except.ok (RunRecord.mk rid gid "failed" s l)) := by
  constructor
  · simp only [run_graph, hg]
    cases run_loop reg graph ms (Option.some graph.start_node) 0 st [] <;>
      exact ⟨_, rfl⟩
  · intro e s l h
    simp only [run_graph, hg]
    simp [h]

theorem run_graph_catches_walk_errors_witness :
    (run_graph okReg missingToolEngine "r" "g" [] 3).snd =
      Except.ok (RunRecord.mk "r" "g" "failed" [] []) :=
  (run_graph_catches_walk_errors okReg missingToolEngine "r" "g" [] 3
    missingToolGraph rfl).2 (EngineError.toolNotFound "nope") [] [] (by decide)

/-- All nodes of the graph are cycle members with succeeding tools: no
condition, a next edge into the graph, and a registered always-succeeding
tool. -/
def AllNodesLoop (reg : ToolRegistry) (graph : GraphDef) : Prop :=
  ∀ k n, findAssoc graph.nodes k = Option.some n →
    n.condition = Option.none ∧
    (∃ k2, n.next = Option.some k2 ∧ hasKey graph.nodes k2 = true) ∧
    (∀ s, ∃ r, registryCall reg n.tool_name s = Except.ok r)

theorem run_loop_all_good (reg : ToolRegistry) (graph : GraphDef)
    (H : AllNodesLoop reg graph) :
    ∀ (fuel : Nat) (cur : String) (sc : Nat) (st : StateBag)
      (lg : List StepLog), hasKey graph.nodes cur = true →
    ∃ s l, run_loop reg graph fuel (Option.some cur) sc st lg =
      LoopResult.completed s l ∧ l.length = lg.length + fuel := by
  intro fuel
  induction fuel with
  | zero =>
    intro cur sc st lg _
    exact ⟨st, lg, run_loop_zero reg graph (Option.some cur) sc st lg, by simp⟩
  | succ fuel ih =>
    intro cur sc st lg hcur
    have hsome : (findAssoc graph.nodes cur).isSome := by
      rw [← hasKey_eq_isSome]
      exact hcur
    obtain ⟨node, hf⟩ := Option.isSome_iff_exists.mp hsome
    obtain ⟨hcond, ⟨k2, hnext, hk2⟩, htool⟩ := H cur node hf
    obtain ⟨res, hcall⟩ := htool st
    have hdn : decide_next node
        (if res.isEmpty then st else updateState st res) =
        Except.ok (Option.some k2) := by
      simp [decide_next, hcond, hnext]
    rw [run_loop_succ_step reg graph fuel cur sc st lg node res
      (Option.some k2) hf hcall hdn]
    obtain ⟨s, l, heq, hlen⟩ := ih k2 (sc + 1)
      (if res.isEmpty then st else updateState st res)
      (lg ++ [StepLog.mk (sc + 1) node.id node.tool_name (Option.some k2)
        (if res.isEmpty then st else updateState st res)]) hk2
    refine ⟨s, l, heq, ?_⟩
    rw [hlen]
    simp
    omega

/-- Claim C2: on a graph whose nodes all loop onward (every node unconditional,
next edge inside the graph, tools registered and succeeding), run_graph with
any step budget finishes with status completed — identically to reaching a
terminal node — and the log has exactly max_steps entries; in particular a
one-node self-cycle with budget 5 logs exactly 5 steps and completes. -/
theorem budget_exhaustion_completed (reg : ToolRegistry) (eng : Engine)
    (rid gid : String) (st : StateBag) (ms : Nat) (graph : GraphDef)
    (hg : findAssoc eng.graphs gid = Option.some graph)
    (hstart : hasKey graph.nodes graph.start_node = true)
    (H : AllNodesLoop reg graph) :
    ∃ r, (run_graph reg eng rid gid st ms).snd = Except.ok r ∧
      r.status = "completed" ∧ r.log.length = ms := by
  obtain ⟨s, l, heq, hlen⟩ :=
    run_loop_all_good reg graph H ms graph.start_node 0 st [] hstart
  refine ⟨RunRecord.mk rid gid "completed" s l, ?_, rfl, by simpa using hlen⟩
  simp only [run_graph, hg]
  simp [heq]

theorem cycleGraph_allNodesLoop : AllNodesLoop okReg cycleGraph := by
  intro k n h
  rw [show cycleGraph.nodes = [("X", cycleNode)] from rfl, findAssoc_cons] at h
  by_cases hk : ("X" : String) = k
  · rw [if_pos (by simp [hk])] at h
    have hn : cycleNode = n := by
      injection h
    rw [← hn]
    exact ⟨rfl, ⟨"X", rfl, by decide⟩, fun s => ⟨[], rfl⟩⟩
  · rw [if_neg (by simp [hk])] at h
    exact absurd h (by simp [findAssoc])

theorem budget_exhaustion_completed_witness :
    (run_graph okReg cycleEngine "r" "g" [] 5).snd = Except.ok cycleRecord ∧
    cycleRecord.status = "completed" ∧ cycleRecord.log.length = 5 := by
  obtain ⟨r, h1, h2, h3⟩ :=
    budget_exhaustion_completed okReg cycleEngine "r" "g" [] 5 cycleGraph rfl
      (by decide) cycleGraph_allNodesLoop
  have he : (Except.ok r : Except EngineError RunRecord) =
      Except.ok cycleRecord := by
    rw [← h1]
    rfl
  have hr : r = cycleRecord := by
    injection he
  exact ⟨by rw [← hr]; exact h1, by rw [← hr]; exact h2, by rw [← hr]; exact h3⟩

theorem run_loop_log_steps (reg : ToolRegistry) (graph : GraphDef) :
    ∀ (fuel : Nat) (cur : Option String) (sc : Nat) (st : StateBag)
      (lg : List StepLog), sc = lg.length →
    (∀ i (h : i < lg.length), (lg.get ⟨i, h⟩).step = i + 1) →
    ∀ i (h : i < ((run_loop reg graph fuel cur sc st lg).logOf).length),
      (((run_loop reg graph fuel cur sc st lg).logOf).get
        ⟨i, h⟩).step = i + 1 := by
  intro fuel
  induction fuel with
  | zero =>
    intro cur sc st lg _ hlg
    cases cur with
    | none => rw [run_loop_none]; exact hlg
    | some c => rw [run_loop_zero]; exact hlg
  | succ fuel ih =>
    intro cur sc st lg hsc hlg
    cases cur with
    | none => rw [run_loop_none]; exact hlg
    | some c =>
      cases hf : findAssoc graph.nodes c with
      | none =>
        rw [run_loop_succ_node_missing reg graph fuel c sc st lg hf]
        exact hlg
      | some node =>
        cases hc : registryCall reg node.tool_name st with
        | error e =>
          rw [run_loop_succ_tool_error reg graph fuel c sc st lg
            node e hf hc]
          exact hlg
        | ok res =>
          cases hd : decide_next node
              (if res.isEmpty then st else updateState st res) with
          | error e =>
            rw [run_loop_succ_cond_error reg graph fuel c sc st lg
              node res e hf hc hd]
            exact hlg
          | ok nxt =>
            rw [run_loop_succ_step reg graph fuel c sc st lg
              node res nxt hf hc hd]
            have hgrow : ∀ i (h : i < (lg ++ [StepLog.mk (sc + 1)
                node.id node.tool_name nxt
                (if res.isEmpty then st else updateState st res)]).length),
                ((lg ++ [StepLog.mk (sc + 1) node.id node.tool_name nxt
                  (if res.isEmpty then st else updateState st res)]).get
                  ⟨i, h⟩).step = i + 1 := by
              intro i h
              rcases Nat.lt_or_ge i lg.length with hi | hi
              · rw [List.get_eq_getElem, List.getElem_append_left hi]
                exact hlg i hi
              · have hlen : i = lg.length := by
                  simp at h
                  omega
                subst hlen
                rw [List.get_eq_getElem, List.getElem_append_right
                  (Nat.le_refl _)]
                simp [hsc]
            exact ih nxt (sc + 1)
              (if res.isEmpty then st else updateState st res)
              (lg ++ [StepLog.mk (sc + 1) node.id node.tool_name nxt
                (if res.isEmpty then st else updateState st res)])
              (by simp [hsc]) hgrow

/-- Claim C7: for every run whose graph resolves, the returned record's log
has log.get i with step = i + 1: steps start at 1 and increase by exactly one
with no gaps, in append order. -/
theorem log_steps_sequential (reg : ToolRegistry) (eng : Engine)
    (rid gid : String) (st : StateBag) (ms : Nat) (graph : GraphDef)
    (r : RunRecord)
    (hg : findAssoc eng.graphs gid = Option.some graph)
    (hr : (run_graph reg eng rid gid st ms).snd = Except.ok r) :
    ∀ i (h : i < r.log.length), (r.log.get ⟨i, h⟩).step = i + 1 := by
  simp only [run_graph, hg] at hr
  have hinv := run_loop_log_steps reg graph ms (Option.some graph.start_node)
    0 st [] rfl (by intro i h; exact absurd h (by simp))
  cases hres : run_loop reg graph ms (Option.some graph.start_node) 0 st [] with
  | completed s l =>
    rw [hres] at hr
    simp at hr
    rw [← hr]
    rw [hres] at hinv
    exact hinv
  | failed e s l =>
    rw [hres] at hr
    simp at hr
    rw [← hr]
    rw [hres] at hinv
    exact hinv

theorem log_steps_sequential_witness :
    (run_graph okReg termEngine "r" "g" [] 100).snd = Except.ok termRecord ∧
    (termRecord.log.get ⟨0, by decide⟩).step = 0 + 1 :=
  ⟨rfl,
    log_steps_sequential okReg termEngine "r" "g" [] 100 termGraph termRecord
      rfl rfl 0 (by decide)⟩

/-- Claim C9: for a known graph id, the record inserted before execution has
status running, a copy of the initial state and an empty log, and after
run_graph returns, get_run on the run id of the resulting engine returns
exactly the returned record. -/
theorem run_record_registered (reg : ToolRegistry) (eng : Engine)
    (rid gid : String) (st : StateBag) (ms : Nat) (graph : GraphDef)
    (hg : findAssoc eng.graphs gid = Option.some graph) :
    (init_run rid gid st).status = "running" ∧
    (init_run rid gid st).state = st ∧
    (init_run rid gid st).log = [] ∧
    ∃ r, (run_graph reg eng rid gid st ms).snd = Except.ok r ∧
      get_run (run_graph reg eng rid gid st ms).fst rid = Except.ok r := by
  refine ⟨rfl, rfl, rfl, ?_⟩
  simp only [run_graph, hg]
  cases hres : run_loop reg graph ms (Option.some graph.start_node) 0 st [] with
  | completed s l =>
    refine ⟨RunRecord.mk rid gid "completed" s l, rfl, ?_⟩
    simp [get_run, findAssoc_setAssoc]
  | failed e s l =>
    refine ⟨RunRecord.mk rid gid "failed" s l, rfl, ?_⟩
    simp [get_run, findAssoc_setAssoc]

theorem run_record_registered_witness :
    (init_run "r" "g" []).status = "running" ∧
    (init_run "r" "g" []).state = ([] : StateBag) ∧
    (init_run "r" "g" []).log = ([] : List StepLog) ∧
    (run_graph okReg termEngine "r" "g" [] 100).snd = Except.ok termRecord ∧
    get_run (run_graph okReg termEngine "r" "g" [] 100).fst "r" =
      Except.ok termRecord := by
  obtain ⟨h1, h2, h3, r, h4, h5⟩ :=
    run_record_registered okReg termEngine "r" "g" [] 100 termGraph rfl
  have he : (Except.ok r : Except EngineError RunRecord) =
      Except.ok termRecord := by
    rw [← h4]
    rfl
  have hr : r = termRecord := by
    injection he
  exact ⟨h1, h2, h3, by rw [← hr]; exact h4, by rw [← hr]; exact h5⟩

/-- A node whose fixed successor is the empty string rather than None. -/
def emptyNextNode : NodeConfig :=
  NodeConfig.mk "A" "t" (Option.some "") Option.none

def emptyNextGraph : GraphDef := GraphDef.mk "g" "G" "A" [("A", emptyNextNode)]

def emptyNextEngine : Engine := Engine.mk [("g", emptyNextGraph)] []

/-- Claim C4 counterexample: with a node whose next is the empty string, the
walk does not treat the empty string as terminal: the run ends failed (the
empty string was looked up as a node id and was not found), not completed. -/
theorem empty_string_successor_counterexample :
    (run_graph okReg emptyNextEngine "r" "g" [] 5).snd =
      Except.ok (RunRecord.mk "r" "g" "failed" []
        [StepLog.mk 1 "A" "t" (Option.some "") []]) ∧
    "failed" ≠ "completed" := by
  exact ⟨rfl, by decide⟩

/-- Claim C4 amended: only a None successor is terminal: the loop exits and
completes on current = None; a current equal to the empty string is looked up
as an ordinary node id and, when no node has the empty id, the step fails with
NodeNotFound, making the run failed. -/
theorem empty_string_successor_amended (reg : ToolRegistry) (graph : GraphDef)
    (fuel sc : Nat) (st : StateBag) (lg : List StepLog)
    (hnoEmpty : hasKey graph.nodes "" = false) :
    run_loop reg graph fuel Option.none sc st lg =
      LoopResult.completed st lg ∧
    run_loop reg graph (fuel + 1) (Option.some "") sc st lg =
      LoopResult.failed (EngineError.nodeNotFound "") st lg := by
  constructor
  · exact run_loop_none reg graph fuel sc st lg
  · exact run_loop_succ_node_missing reg graph fuel "" sc st lg
      (hasKey_false_findAssoc graph.nodes "" hnoEmpty)

theorem empty_string_successor_amended_witness :
    hasKey emptyNextGraph.nodes "" = false ∧
    run_loop okReg emptyNextGraph 4 (Option.some "") 1 []
        [StepLog.mk 1 "A" "t" (Option.some "") []] =
      LoopResult.failed (EngineError.nodeNotFound "") []
        [StepLog.mk 1 "A" "t" (Option.some "") []] :=
  ⟨by decide,
    (empty_string_successor_amended okReg emptyNextGraph 3 1 []
      [StepLog.mk 1 "A" "t" (Option.some "") []] (by decide)).2⟩

/-- Claim C5: the tool-result merge used by run_graph is a key-wise overwrite:
a key bound in the result takes the result's value, a key not bound keeps its
prior value, key presence is the union of both maps, and a successful loop
iteration with a non-empty result continues with exactly the merged state
(which is also what the step's log entry snapshots). -/
theorem state_merge_overwrite (s d : StateBag)
    (hnd : (d.map Prod.fst).Nodup) :
    (∀ k v, findAssoc d k = Option.some v → getVal (updateState s d) k = v) ∧
    (∀ k, findAssoc d k = Option.none →
      getVal (updateState s d) k = getVal s k) ∧
    (∀ k, hasKey (updateState s d) k = (hasKey s k || hasKey d k)) ∧
    (∀ (reg : ToolRegistry) (graph : GraphDef) (fuel : Nat) (c : String)
      (sc : Nat) (lg : List StepLog) (node : NodeConfig) (nxt : Option String),
      findAssoc graph.nodes c = Option.some node →
      registryCall reg node.tool_name s = Except.ok d →
      d ≠ [] →
      decide_next node (updateState s d) = Except.ok nxt →
      run_loop reg graph (fuel + 1) (Option.some c) sc s lg =
        run_loop reg graph fuel nxt (sc + 1) (updateState s d)
          (lg ++ [StepLog.mk (sc + 1) node.id node.tool_name nxt
            (updateState s d)])) := by
  refine ⟨?_, ?_, ?_, ?_⟩
  · intro k v h
    rw [getVal_eq_findAssoc, findAssoc_updateState_some d s k v hnd h]
    rfl
  · intro k h
    rw [getVal_eq_findAssoc, findAssoc_updateState_none d s k h,
      ← getVal_eq_findAssoc]
  · intro k
    exact hasKey_updateState d s k
  · intro reg graph fuel c sc lg node nxt h1 h2 hne h3
    have hie : d.isEmpty = false := by
      cases d with
      | nil => exact absurd rfl hne
      | cons q t => rfl
    have h3' : decide_next node (if d.isEmpty then s else updateState s d) =
        Except.ok nxt := by
      rw [hie]
      simpa using h3
    have := run_loop_succ_step reg graph fuel c sc s lg node d nxt h1 h2 h3'
    rw [hie] at this
    simpa using this

/-- Two concrete tool deltas for the C5 scenario. -/
def deltaA1 : StateBag := [("a", Value.vint 1)]

def deltaB2 : StateBag := [("b", Value.vint 2)]

theorem state_merge_overwrite_witness :
    getVal (updateState (updateState [] deltaA1) deltaB2) "a" = Value.vint 1 ∧
    getVal (updateState (updateState [] deltaA1) deltaB2) "b" = Value.vint 2 ∧
    getVal (updateState (updateState [] deltaA1) [("a", Value.vint 2)]) "a" =
      Value.vint 2 := by
  refine ⟨?_, ?_, ?_⟩
  · exact (state_merge_overwrite (updateState [] deltaA1) deltaB2
      (by decide)).2.1 "a" (by decide)
  · exact (state_merge_overwrite (updateState [] deltaA1) deltaB2
      (by decide)).1 "b" (Value.vint 2) (by decide)
  · exact (state_merge_overwrite (updateState [] deltaA1) [("a", Value.vint 2)]
      (by decide)).1 "a" (Value.vint 2) (by decide)

/-- Claim C6: the condition, when present, fully overrides the node's fixed
next edge: without a condition the successor is exactly node.next; with one,
the successor is true_next when the comparison holds and false_next otherwise;
and on int operands the six ops evaluate by the natural order and equality of
the integers. -/
theorem decide_next_condition_override (node : NodeConfig) (st : StateBag) :
    (node.condition = Option.none →
      decide_next node st = Except.ok node.next) ∧
    (∀ c, node.condition = Option.some c →
      (eval_condition c (getVal st c.key) c.value = Except.ok true →
        decide_next node st = Except.ok c.true_next) ∧
      (eval_condition c (getVal st c.key) c.value = Except.ok false →
        decide_next node st = Except.ok c.false_next)) ∧
    (∀ (c : Condition) (a b : Int),
      (c.op = "lt" → eval_condition c (Value.vint a) (Value.vint b) =
        Except.ok (decide (a < b))) ∧
      (c.op = "le" → eval_condition c (Value.vint a) (Value.vint b) =
        Except.ok (decide (a ≤ b))) ∧
      (c.op = "gt" → eval_condition c (Value.vint a) (Value.vint b) =
        Except.ok (decide (b < a))) ∧
      (c.op = "ge" → eval_condition c (Value.vint a) (Value.vint b) =
        Except.ok (decide (b ≤ a))) ∧
      (c.op = "eq" → eval_condition c (Value.vint a) (Value.vint b) =
        Except.ok (a == b)) ∧
      (c.op = "ne" → eval_condition c (Value.vint a) (Value.vint b) =
        Except.ok (!(a == b)))) := by
  refine ⟨?_, ?_, ?_⟩
  · intro h
    simp [decide_next, h]
  · intro c hc
    constructor
    · intro he
      simp [decide_next, hc, he]
    · intro he
      simp [decide_next, hc, he]
  · intro c a b
    refine ⟨?_, ?_, ?_, ?_, ?_, ?_⟩ <;> intro hop <;>
      simp [eval_condition, hop, pyLt, pyLe, pyGt, pyGe, pyEq]

/-- The spec's example condition: n ge 10, branching to done or retry. -/
def geCond : Condition :=
  Condition.mk "n" "ge" (Value.vint 10) (Option.some "done")
    (Option.some "retry")

def geNode : NodeConfig :=
  NodeConfig.mk "B" "t" (Option.some "ignored") (Option.some geCond)

theorem decide_next_condition_override_witness :
    decide_next geNode [("n", Value.vint 12)] =
      Except.ok (Option.some "done") ∧
    decide_next geNode [("n", Value.vint 3)] =
      Except.ok (Option.some "retry") :=
  ⟨((decide_next_condition_override geNode [("n", Value.vint 12)]).2.1 geCond
      rfl).1 rfl,
    ((decide_next_condition_override geNode [("n", Value.vint 3)]).2.1 geCond
      rfl).2 rfl⟩

theorem hasKey_nodes_by_id (ns : List NodeConfig) (k : String) :
    hasKey (nodes_by_id ns) k = ns.any (fun n => n.id == k) := by
  have haux : ∀ (l : List NodeConfig) (acc : List (String × NodeConfig)),
      hasKey (l.foldl (fun a n => setAssoc a n.id n) acc) k =
        (hasKey acc k || l.any (fun n => n.id == k)) := by
    intro l
    induction l with
    | nil =>
      intro acc
      simp
    | cons n l ih =>
      intro acc
      rw [List.foldl_cons, ih, hasKey_setAssoc, List.any_cons]
      cases h1 : hasKey acc k <;> cases h2 : (n.id == k) <;>
        cases h3 : l.any (fun n => n.id == k) <;> simp
  rw [nodes_by_id, haux]
  simp [hasKey]

/-- Claim C8: create_graph fails with InvalidGraph exactly when start_node is
not among the supplied node ids, leaving the graph store unchanged; when it is
among them, the definition is stored under the fresh id, which create_graph
returns and under which get succeeds. -/
theorem create_graph_validates_start (eng : Engine) (gid : String)
    (req : GraphCreateRequest) :
    (req.nodes.any (fun n => n.id == req.start_node) = false →
      create_graph eng gid req =
        (eng, Except.error EngineError.invalidGraph)) ∧
    (req.nodes.any (fun n => n.id == req.start_node) = true →
      create_graph eng gid req =
        (Engine.mk (setAssoc eng.graphs gid
            (GraphDef.mk gid req.name req.start_node (nodes_by_id req.nodes)))
          eng.runs, Except.ok gid) ∧
      get_graph (create_graph eng gid req).fst gid =
        Except.ok (GraphDef.mk gid req.name req.start_node
          (nodes_by_id req.nodes))) := by
  constructor
  · intro h
    rw [create_graph]
    rw [hasKey_nodes_by_id, h]
    rfl
  · intro h
    have heq : create_graph eng gid req =
        (Engine.mk (setAssoc eng.graphs gid
            (GraphDef.mk gid req.name req.start_node (nodes_by_id req.nodes)))
          eng.runs, Except.ok gid) := by
      rw [create_graph]
      rw [hasKey_nodes_by_id, h]
      rfl
    refine ⟨heq, ?_⟩
    rw [heq]
    simp [get_graph, findAssoc_setAssoc]

/-- A creation request whose start node is among the node ids, and one whose
start node is not. -/
def goodReq : GraphCreateRequest :=
  GraphCreateRequest.mk "G" "A" [termNode]

def badReq : GraphCreateRequest :=
  GraphCreateRequest.mk "G" "B" [termNode]

theorem create_graph_validates_start_witness :
    (create_graph (Engine.mk [] []) "g" badReq =
      ((Engine.mk [] []), Except.error EngineError.invalidGraph)) ∧
    get_graph (create_graph (Engine.mk [] []) "g" goodReq).fst "g" =
      Except.ok (GraphDef.mk "g" "G" "A" (nodes_by_id goodReq.nodes)) :=
  ⟨(create_graph_validates_start (Engine.mk [] []) "g" badReq).1 (by decide),
    ((create_graph_validates_start (Engine.mk [] []) "g" goodReq).2
      (by decide)).2⟩

/-- Claim C10: condition evaluation with op eq or ne is total on every pair of
operand values (it never raises), the missing-key sentinel None compares
unequal to every non-None value, and a node whose eq-condition reads an absent
key with a non-None comparison operand branches to false_next rather than
failing the run. -/
theorem eq_ne_total (c : Condition) (l r : Value) (node : NodeConfig)
    (st : StateBag) :
    ((c.op = "eq" ∨ c.op = "ne") → ∃ b, eval_condition c l r = Except.ok b) ∧
    (∀ v, v ≠ Value.vnone → pyEq Value.vnone v = false) ∧
    (node.condition = Option.some c → c.op = "eq" →
      hasKey st c.key = false → c.value ≠ Value.vnone →
      decide_next node st = Except.ok c.false_next) := by
  refine ⟨?_, ?_, ?_⟩
  · rintro (hop | hop)
    · exact ⟨pyEq l r, by simp [eval_condition, hop]⟩
    · exact ⟨!pyEq l r, by simp [eval_condition, hop]⟩
  · intro v hv
    cases v with
    | vnone => exact absurd rfl hv
    | vint n => rfl
    | vstr s => rfl
  · intro hc hop hmiss hval
    have hgv : getVal st c.key = Value.vnone := hasKey_false_getVal st c.key hmiss
    have hfalse : pyEq Value.vnone c.value = false := by
      cases hv : c.value with
      | vnone => exact absurd hv hval
      | vint n => rfl
      | vstr s => rfl
    simp [decide_next, hc, hgv, eval_condition, hop, hfalse]

/-- A node whose eq-condition reads a key absent from the state. -/
def eqCond : Condition :=
  Condition.mk "missing" "eq" (Value.vint 5) (Option.some "T")
    (Option.some "F")

def eqNode : NodeConfig :=
  NodeConfig.mk "C" "t" Option.none (Option.some eqCond)

theorem eq_ne_total_witness :
    decide_next eqNode [("other", Value.vint 1)] =
      Except.ok (Option.some "F") :=
  (eq_ne_total eqCond Value.vnone (Value.vint 5) eqNode
    [("other", Value.vint 1)]).2.2 rfl rfl (by decide) (by decide)

/-! ### Reference model of the log snapshot (dict(state))

In the Python engine the values of the state dict are references to heap
objects; primitives are immutable but lists and dicts can be mutated in place.
`dict(state)` copies only the key-to-reference bindings. We model a heap as a
list of objects addressed by index, the live state as a key-to-address map,
and the snapshot as the binding-level copy the source takes. -/

/-- A heap object: an immutable primitive, or a mutable list (mutable in
place, as a Python list). -/
inductive Obj where
  | prim (v : Value)
  | olist (xs : List Value)
deriving DecidableEq, Repr

abbrev Heap := List Obj

/-- The state dict seen at the reference level: keys bound to heap
addresses. -/
abbrev RefState := List (String × Nat)

/-- dict(state): a new dict with the same key-to-reference bindings — the
addresses are shared, the referenced objects are not copied. -/
def shallow_snapshot (rs : RefState) : RefState := rs.map (fun p => p)

/-- Reading a key through a reference-level state: resolve the binding, then
dereference the heap. -/
def view_key (h : Heap) (rs : RefState) (k : String) : Option Obj :=
  match findAssoc rs k with
  | Option.some a => h.get? a
  | Option.none => Option.none

/-- In-place mutation of the object stored at an address (e.g. a Python
list.append through an alias). -/
def heap_mutate (h : Heap) (a : Nat) (o : Obj) : Heap := h.set a o

/-- Claim C3 counterexample: the step snapshot taken by run_graph is
dict(state), a binding-level copy only. With state \x7b"xs": [1]\x7d and the
snapshot taken, an in-place mutation of the nested list (appending 2 through
the live alias) changes what the previously taken snapshot shows for "xs":
the snapshot is not a deep copy and is not insulated from in-place mutation
of nested mutable values. -/
theorem snapshot_not_deep_counterexample :
    view_key (heap_mutate [Obj.olist [Value.vint 1]] 0
        (Obj.olist [Value.vint 1, Value.vint 2]))
      (shallow_snapshot [("xs", 0)]) "xs" ≠
    view_key [Obj.olist [Value.vint 1]]
      (shallow_snapshot [("xs", 0)]) "xs" := by
  decide

/-- Claim C3 amended: each log entry's state is a binding-level (top-level)
copy of the state bag: a snapshot reads exactly what the live state read when
it was taken, and it is unaffected by anything that only adds new objects to
the heap and rebinds keys in the live dict — which is all that run_graph's own
state.update merging does; only in-place mutation of an already-referenced
nested mutable object (shown in the counterexample) can retroactively change
a snapshot. -/
theorem snapshot_binding_copy_amended (h ext : Heap) (rs : RefState)
    (k : String) (hvalid : ∀ p, p ∈ rs → p.snd < h.length) :
    view_key h (shallow_snapshot rs) k = view_key h rs k ∧
    view_key (h ++ ext) (shallow_snapshot rs) k = view_key h rs k := by
  have hsnap : shallow_snapshot rs = rs := by
    simp [shallow_snapshot]
  refine ⟨by rw [hsnap], ?_⟩
  rw [hsnap]
  unfold view_key
  cases hf : findAssoc rs k with
  | none => rfl
  | some a =>
    have hmem : ∃ p, p ∈ rs ∧ p.snd = a := by
      unfold findAssoc at hf
      cases hfind : rs.find? (fun p => p.fst == k) with
      | none =>
        rw [hfind] at hf
        exact absurd hf (by simp)
      | some p =>
        rw [hfind] at hf
        exact ⟨p, List.mem_of_find?_eq_some hfind, Option.some.inj hf⟩
    obtain ⟨p, hp, hpa⟩ := hmem
    have ha : a < h.length := hpa ▸ hvalid p hp
    simp [List.getElem?_append_left ha]

theorem snapshot_binding_copy_amended_witness :
    view_key ([Obj.olist [Value.vint 1]] ++ [Obj.prim (Value.vint 7)])
      (shallow_snapshot [("xs", 0)]) "xs" =
    view_key [Obj.olist [Value.vint 1]] [("xs", 0)] "xs" :=
  (snapshot_binding_copy_amended [Obj.olist [Value.vint 1]]
    [Obj.prim (Value.vint 7)] [("xs", 0)] "xs"
    (by intro p hp; simp at hp; simp [hp])).2

end Workflow
